import Mathlib

/-!
Verification of the Location-to-Tariff Resolution & Overlay Pipeline
(src/app.js of dassey/perdiem).

The file shallowly embeds the JavaScript source.  JavaScript runtime
values are modelled by the inductive type JsValue; a thrown exception is
modelled by the error side of Except JsError.  Property access on null
or undefined throws a TypeError, access on any other value yields the
field (or undefined); these are the only JavaScript semantics the source
relies on, together with truthiness, strict equality, SameValueZero
(used by Set), ToNumber and ToString coercion, and Math.min / Math.max.

Numbers are modelled as integers extended with NaN and the two
infinities: the source only compares, takes minima / maxima and prints
numbers, never performs arithmetic on them, so exact rational values
outside the integers are not needed; ToNumber on strings is modelled on
the integer-literal fragment (other numeric strings fall to NaN, which
no theorem below depends on).

Each network call site is abstracted by a FetchOutcome oracle describing
what the service did: the fetch promise rejected (transportError), the
response was not ok (httpError), res.json() failed to parse (badJson),
or a parsed body was produced (success body).
-/

/-- JavaScript numbers as used by the source: NaN, the infinities, and
integer values (the source never does arithmetic on numbers). -/
inductive JsNum where
  | nan
  | posInf
  | negInf
  | int (n : Int)
deriving DecidableEq

/-- JavaScript runtime values (JSON values plus undefined). -/
inductive JsValue where
  | null
  | undefined
  | bool (b : Bool)
  | num (v : JsNum)
  | str (s : String)
  | arr (elems : List JsValue)
  | obj (fields : List (String × JsValue))

/-- Errors a piece of the source can throw. -/
inductive JsError where
  | typeError
  | fetchFailed
  | jsonParse
  | thrown (msg : String)
deriving DecidableEq

/-- Outcome of one fetch call: the promise rejected, the response was not
ok, the body failed to parse as JSON, or a body was produced. -/
inductive FetchOutcome where
  | transportError
  | httpError
  | badJson
  | success (body : JsValue)

/-- JavaScript ToString for numbers. -/
def numToString : JsNum → String
  | .nan => "NaN"
  | .posInf => "Infinity"
  | .negInf => "-Infinity"
  | .int n => toString n

mutual

/-- JavaScript ToString (string conversion used by template literals).
Arrays stringify by joining their elements with commas, where null and
undefined elements join as empty strings; plain objects stringify to
"[object Object]". -/
def jsToString : JsValue → String
  | .null => "null"
  | .undefined => "undefined"
  | .bool b => if b then "true" else "false"
  | .num v => numToString v
  | .str s => s
  | .obj _ => "[object Object]"
  | .arr xs => jsJoinElems xs

/-- Array.prototype.join with separator "," as used by array ToString. -/
def jsJoinElems : List JsValue → String
  | [] => ""
  | [x] => jsElemString x
  | x :: y :: rest => jsElemString x ++ "," ++ jsJoinElems (y :: rest)

/-- String form of one array element inside join: null and undefined
become the empty string. -/
def jsElemString : JsValue → String
  | .null => ""
  | .undefined => ""
  | .bool b => if b then "true" else "false"
  | .num v => numToString v
  | .str s => s
  | .obj _ => "[object Object]"
  | .arr xs => jsJoinElems xs

end

/-- Truthiness: null, undefined, false, 0, NaN and the empty string are
falsy, everything else (including every array and object) is truthy. -/
def jsTruthy : JsValue → Bool
  | .null => false
  | .undefined => false
  | .bool b => b
  | .num .nan => false
  | .num (.int n) => decide (n ≠ 0)
  | .num _ => true
  | .str s => decide (s ≠ "")
  | .arr _ => true
  | .obj _ => true

/-- null and undefined: the two values property access throws on. -/
def jsNullish : JsValue → Bool
  | .null => true
  | .undefined => true
  | _ => false

/-- Property read on a value that is not null / undefined: objects look
the field up (first binding wins), arrays and strings expose length,
everything else yields undefined. -/
def jsGetTotal : JsValue → String → JsValue
  | .obj fields, name => ((fields.lookup name).getD .undefined)
  | .arr xs, name => if name = "length" then .num (.int (xs.length : Int)) else .undefined
  | .str s, name => if name = "length" then .num (.int (s.length : Int)) else .undefined
  | _, _ => .undefined

/-- Property read, throwing a TypeError on null / undefined. -/
def jsGet (v : JsValue) (name : String) : Except JsError JsValue :=
  if jsNullish v then .error .typeError else .ok (jsGetTotal v name)

/-- Optional-chaining property read: null / undefined short-circuit to
undefined instead of throwing. -/
def jsOptGet (v : JsValue) (name : String) : JsValue :=
  if jsNullish v then .undefined else jsGetTotal v name

/-- The JavaScript logical-or operator: keep the left operand when it is
truthy, otherwise the right one. -/
def jsOr (a b : JsValue) : JsValue :=
  if jsTruthy a then a else b

/-- Index read on a value that is not null / undefined: arrays index
their elements, strings their characters, objects look up the decimal
property name. -/
def jsIndexTotal : JsValue → Nat → JsValue
  | .arr xs, i => xs.getD i .undefined
  | .str s, i =>
      match s.toList.get? i with
      | some c => .str (String.mk [c])
      | none => .undefined
  | .obj fields, i => ((fields.lookup (toString i)).getD .undefined)
  | _, _ => .undefined

/-- Index read, throwing a TypeError on null / undefined. -/
def jsIndex (v : JsValue) (i : Nat) : Except JsError JsValue :=
  if jsNullish v then .error .typeError else .ok (jsIndexTotal v i)

/-- ToNumber on the integer-literal string fragment: optional sign and
decimal digits; the empty (trimmed) string is 0; the Infinity literals;
every other string is NaN in this model. -/
def parseIntString (t : String) : Option Int :=
  let digitsVal : List Char → Int := fun cs =>
    ((cs.foldl (fun acc c => acc * 10 + (c.toNat - 48)) 0 : Nat) : Int)
  match t.toList with
  | [] => none
  | '-' :: rest =>
      if rest ≠ [] ∧ rest.all Char.isDigit then some (-(digitsVal rest)) else none
  | '+' :: rest =>
      if rest ≠ [] ∧ rest.all Char.isDigit then some (digitsVal rest) else none
  | cs =>
      if cs.all Char.isDigit then some (digitsVal cs) else none

/-- ToNumber for strings. -/
def strToNum (s : String) : JsNum :=
  let t := s.trim
  if t = "" then .int 0
  else if t = "Infinity" ∨ t = "+Infinity" then .posInf
  else if t = "-Infinity" then .negInf
  else
    match parseIntString t with
    | some n => .int n
    | none => .nan

/-- JavaScript ToNumber.  Arrays coerce through their ToString (join);
plain objects coerce through "[object Object]", that is NaN. -/
def toNumber : JsValue → JsNum
  | .null => .int 0
  | .undefined => .nan
  | .bool b => .int (if b then 1 else 0)
  | .num v => v
  | .str s => strToNum s
  | .arr xs => strToNum (jsJoinElems xs)
  | .obj _ => .nan

/-- Strict equality on numbers: NaN is unequal to everything, including
itself. -/
def numStrictEq : JsNum → JsNum → Bool
  | .nan, _ => false
  | _, .nan => false
  | .posInf, .posInf => true
  | .negInf, .negInf => true
  | .int m, .int n => decide (m = n)
  | _, _ => false

/-- Strict equality on values.  Operands of different primitive types
are unequal; objects and arrays compare by reference, and two distinct
JSON-parsed objects are never the same reference, modelled as false. -/
def jsStrictEq : JsValue → JsValue → Bool
  | .null, .null => true
  | .undefined, .undefined => true
  | .bool a, .bool b => a == b
  | .num a, .num b => numStrictEq a b
  | .str a, .str b => a == b
  | _, _ => false

/-- SameValueZero, the comparison Set.has / Set.add use: like strict
equality except that NaN matches NaN.  Objects and arrays again compare
by reference (false for the distinct objects JSON parsing produces). -/
def jsSvz : JsValue → JsValue → Bool
  | .null, .null => true
  | .undefined, .undefined => true
  | .bool a, .bool b => a == b
  | .num a, .num b => decide (a = b)
  | .str a, .str b => a == b
  | _, _ => false

/-- Two-argument core of Math.min: NaN absorbs, +Infinity is neutral. -/
def numMin : JsNum → JsNum → JsNum
  | .nan, _ => .nan
  | _, .nan => .nan
  | .posInf, b => b
  | a, .posInf => a
  | .negInf, _ => .negInf
  | _, .negInf => .negInf
  | .int m, .int n => .int (min m n)

/-- Two-argument core of Math.max: NaN absorbs, -Infinity is neutral. -/
def numMax : JsNum → JsNum → JsNum
  | .nan, _ => .nan
  | _, .nan => .nan
  | .negInf, b => b
  | a, .negInf => a
  | .posInf, _ => .posInf
  | _, .posInf => .posInf
  | .int m, .int n => .int (max m n)

/-- Math.min over spread arguments, each coerced by ToNumber; the empty
call yields +Infinity. -/
def jsMathMin (vs : List JsValue) : JsNum :=
  vs.foldl (fun acc v => numMin acc (toNumber v)) JsNum.posInf

/-- Math.max over spread arguments, each coerced by ToNumber; the empty
call yields -Infinity. -/
def jsMathMax (vs : List JsValue) : JsNum :=
  vs.foldl (fun acc v => numMax acc (toNumber v)) JsNum.negInf

/-- Sequential effectful map over a list, stopping at the first thrown
error, as a synchronous forEach-with-push loop does. -/
def exMap (f : α → Except JsError β) : List α → Except JsError (List β)
  | [] => .ok []
  | x :: xs =>
      match f x with
      | .error e => .error e
      | .ok y =>
          match exMap f xs with
          | .error e => .error e
          | .ok ys => .ok (y :: ys)

/-- Canonical rate quote produced by normalizeRates:
normalized.push( lodging, mie ). -/
structure RateQuote where
  lodging : JsValue
  mie : JsValue

/-- The lodging computation of normalizeRates for one sub-record, given
the sub-record's months field:
if (r.months && r.months.month && Array.isArray(r.months.month)) then
map m.value over the breakdown, take Math.min / Math.max, and emit the
single number when min === max, else the template string min-max;
otherwise keep the initial value, the string N/A.  An array is always
truthy, so the truthiness test on months.month combined with
Array.isArray is equivalent to months.month being an array. -/
def lodgingOf (months : JsValue) : Except JsError JsValue :=
  if jsTruthy months then
    match jsGetTotal months "month" with
    | .arr ms =>
        match exMap (fun m => jsGet m "value") ms with
        | .error e => .error e
        | .ok prices =>
            let mn := jsMathMin prices
            let mx := jsMathMax prices
            .ok (if numStrictEq mn mx then .num mn
                 else .str (numToString mn ++ "-" ++ numToString mx))
    | _ => .ok (.str "N/A")
  else .ok (.str "N/A")

/-- One sub-record r of normalizeRates: read r.meals (throws on a
nullish r), then compute lodging from r.months (a plain read: r is known
non-nullish once r.meals succeeded). -/
def normSub (r : JsValue) : Except JsError RateQuote :=
  match jsGet r "meals" with
  | .error e => .error e
  | .ok mie =>
      match lodgingOf (jsGetTotal r "months") with
      | .error e => .error e
      | .ok lodging => .ok ⟨lodging, mie⟩

/-- One top-level record of normalizeRates: subRates = mainItem.rate
or the empty array when falsy; iterating with forEach throws a TypeError
when subRates is a truthy non-array (no forEach method). -/
def normMain (mainItem : JsValue) : Except JsError (List RateQuote) :=
  match jsGet mainItem "rate" with
  | .error e => .error e
  | .ok rate =>
      match jsOr rate (.arr []) with
      | .arr rs => exMap normSub rs
      | _ => .error .typeError

/-- normalizeRates of src/app.js: wrap a non-array payload in a
singleton list, walk every top-level record's rate sub-records, and
collect one RateQuote per sub-record in encounter order. -/
def normalizeRates (rawRates : JsValue) : Except JsError (List RateQuote) :=
  let list := match rawRates with
    | .arr xs => xs
    | v => [v]
  match exMap normMain list with
  | .error e => .error e
  | .ok parts => .ok parts.flatten

/-- The deduplication key of dedupeRates: the template string
lodging-mie where each falsy field is first replaced by the string
N/A. -/
def rateKey (r : RateQuote) : String :=
  jsToString (jsOr r.lodging (.str "N/A")) ++ "-" ++ jsToString (jsOr r.mie (.str "N/A"))

/-- Loop of dedupeRates with its seen set (a Set of key strings). -/
def dedupeRatesAux (seen : List String) : List RateQuote → List RateQuote
  | [] => []
  | r :: rest =>
      if rateKey r ∈ seen then dedupeRatesAux seen rest
      else r :: dedupeRatesAux (rateKey r :: seen) rest

/-- dedupeRates of src/app.js: keep each quote whose key has not been
seen yet, in order. -/
def dedupeRates (rates : List RateQuote) : List RateQuote :=
  dedupeRatesAux [] rates

/-- Body of the try block of fetchPerDiem: a rejected fetch or a failing
res.json() throws; a non-ok response returns the empty list; otherwise
rawRates = data?.rates or else data?.rate or else the empty array, and
the result of normalizeRates (which may itself throw). -/
def fetchPerDiemTry (outcome : FetchOutcome) : Except JsError (List RateQuote) :=
  match outcome with
  | .transportError => .error .fetchFailed
  | .httpError => .ok []
  | .badJson => .error .jsonParse
  | .success data =>
      let rawRates := jsOr (jsOptGet data "rates") (jsOr (jsOptGet data "rate") (.arr []))
      normalizeRates rawRates

/-- fetchPerDiem of src/app.js: the whole body sits in a try / catch
whose catch returns the empty list, so every throw degrades to []. -/
def fetchPerDiem (outcome : FetchOutcome) : Except JsError (List RateQuote) :=
  match fetchPerDiemTry outcome with
  | .ok quotes => .ok quotes
  | .error _ => .ok []

/-- resolveZip of src/app.js.  The reverse geocoding call is abstracted
by the reverse outcome; the returned Nat counts how many reverse
lookups were issued.  place.address and place.address.postcode are read
with short-circuit truthiness; on the lookup path a non-ok response
returns null, and the body is read as data.address?.postcode or else
null (a plain read of data.address, throwing on a nullish body). -/
def resolveZip (place : JsValue) (reverse : FetchOutcome) : Except JsError (JsValue × Nat) :=
  match jsGet place "address" with
  | .error e => .error e
  | .ok addr =>
      if jsTruthy addr && jsTruthy (jsGetTotal addr "postcode") then
        .ok (jsGetTotal addr "postcode", 0)
      else
        match reverse with
        | .transportError => .error .fetchFailed
        | .httpError => .ok (.null, 1)
        | .badJson => .error .jsonParse
        | .success data =>
            match jsGet data "address" with
            | .error e => .error e
            | .ok daddr => .ok (jsOr (jsOptGet daddr "postcode") .null, 1)

/-- fetchZipBoundary of src/app.js: a non-ok response throws the
boundary error message; on success the result is data[0]?.geojson or
else null (data[0] throws on a nullish body). -/
def fetchZipBoundary (outcome : FetchOutcome) : Except JsError JsValue :=
  match outcome with
  | .transportError => .error .fetchFailed
  | .httpError => .error (.thrown "Could not load boundary for the target Zip Code.")
  | .badJson => .error .jsonParse
  | .success data =>
      match jsIndex data 0 with
      | .error e => .error e
      | .ok first => .ok (jsOr (jsOptGet first "geojson") .null)

/-- The target overlay drawn by drawTarget: a geoJSON polygon layer, or
the circle-marker fallback at the resolved coordinate. -/
inductive TargetOverlay where
  | polygonLayer (geojson : JsValue) (zip : JsValue)
  | markerLayer (center : JsNum × JsNum) (zip : JsValue)

/-- drawTarget of src/app.js: a truthy geojson is drawn as a polygon
layer, anything else falls back to a circle marker at the center. -/
def drawTarget (geojson : JsValue) (fallbackCenter : JsNum × JsNum) (zip : JsValue) : TargetOverlay :=
  if jsTruthy geojson then .polygonLayer geojson zip else .markerLayer fallbackCenter zip

/-- A region candidate as built by fetchSurroundingZips:
zones.push( postalCode: code, geometry: el.geometry ). -/
structure Zone where
  postalCode : JsValue
  geometry : JsValue

/-- The JavaScript object a Zone is: the object literal pushed into
zones.  It has exactly the fields postalCode and geometry (no geojson
field). -/
def Zone.toJs (z : Zone) : JsValue :=
  .obj [("postalCode", z.postalCode), ("geometry", z.geometry)]

/-- The loop of fetchSurroundingZips over data.elements, carrying the
seen Set: el.tags is a plain read (throws on a nullish element),
tags?.postal_code an optional one; a falsy code, a code strictly equal
to the target zip, or a code already in the Set is skipped, everything
else is recorded and pushed with el.geometry. -/
def zonesLoop (targetZip : JsValue) (seen : List JsValue) : List JsValue → Except JsError (List Zone)
  | [] => .ok []
  | el :: rest =>
      match jsGet el "tags" with
      | .error e => .error e
      | .ok tags =>
          let code := jsOptGet tags "postal_code"
          if !jsTruthy code || jsStrictEq code targetZip || seen.any (fun s => jsSvz s code) then
            zonesLoop targetZip seen rest
          else
            match zonesLoop targetZip (code :: seen) rest with
            | .error e => .error e
            | .ok zs => .ok (⟨code, jsGetTotal el "geometry"⟩ :: zs)

/-- fetchSurroundingZips of src/app.js: a rejected fetch or a failing
res.json() throws (there is no try / catch here); a non-ok response
returns the empty list; on success the loop runs over data.elements or
else the empty array.  Iterating a truthy non-iterable with for..of
throws a TypeError; iterating a string yields one-character strings,
none of which has tags, so every character is skipped. -/
def fetchSurroundingZips (outcome : FetchOutcome) (targetZip : JsValue) : Except JsError (List Zone) :=
  match outcome with
  | .transportError => .error .fetchFailed
  | .httpError => .ok []
  | .badJson => .error .jsonParse
  | .success data =>
      match jsGet data "elements" with
      | .error e => .error e
      | .ok els =>
          match jsOr els (.arr []) with
          | .arr es => zonesLoop targetZip [] es
          | .str _ => .ok []
          | _ => .error .typeError

/-- A drawn neighbor shape. -/
inductive LeafletShape where
  | geoJsonLayer (geojson : JsValue)
  | polygonLayer (latlngs : List (JsValue × JsValue))

/-- toLeafletShape of src/app.js: a truthy zone.geojson becomes a
geoJSON layer; otherwise a zone.geometry that is truthy with a truthy
length is mapped pointwise to lat / lon pairs (mapping a truthy
non-array, a nonempty string say, throws for want of a map method);
anything else yields null, modelled as none. -/
def toLeafletShape (zone : JsValue) : Except JsError (Option LeafletShape) :=
  match jsGet zone "geojson" with
  | .error e => .error e
  | .ok gj =>
      if jsTruthy gj then .ok (some (.geoJsonLayer gj))
      else
        match jsGet zone "geometry" with
        | .error e => .error e
        | .ok geom =>
            if jsTruthy geom && jsTruthy (jsGetTotal geom "length") then
              match geom with
              | .arr pts =>
                  match exMap (fun pt =>
                      match jsGet pt "lat" with
                      | .error e => .error e
                      | .ok la =>
                          match jsGet pt "lon" with
                          | .error e => .error e
                          | .ok lo => .ok (la, lo)) pts with
                  | .error e => .error e
                  | .ok latlngs => .ok (some (.polygonLayer latlngs))
              | _ => .error .typeError
            else .ok none

/-- A neighbor overlay attached to the map by renderSurrounding: the
drawn shape together with the postal code its click handler fetches
rates for.  A zone with no shape is skipped by the early return and
never becomes an overlay, hence is never clickable and never triggers a
rate fetch. -/
structure NeighborOverlay where
  postalCode : JsValue
  shape : LeafletShape

/-- The per-zone body of the forEach in renderSurrounding.  The callback
is an async arrow: a throw inside it only rejects that zone's promise
and is not observed by renderSurrounding, so a throwing zone simply
contributes no overlay, exactly like the early return on a null
layer. -/
def neighborOverlayOf (z : Zone) : Option NeighborOverlay :=
  match toLeafletShape (Zone.toJs z) with
  | .ok (some shape) => some ⟨z.postalCode, shape⟩
  | _ => none

/-- renderSurrounding of src/app.js: await fetchSurroundingZips (its
throws propagate, there is no try / catch on this path), then attach one
overlay per zone that produces a shape. -/
def renderSurrounding (outcome : FetchOutcome) (targetZip : JsValue) : Except JsError (List NeighborOverlay) :=
  match fetchSurroundingZips outcome targetZip with
  | .error e => .error e
  | .ok neighbors => .ok (neighbors.filterMap neighborOverlayOf)

/-- What one successful run of updateView leaves behind: the target
overlay, the deduped rate list shown by displayRates, and the attached
neighbor overlays. -/
structure ViewResult where
  target : TargetOverlay
  displayedRates : List RateQuote
  neighborOverlays : List NeighborOverlay

/-- updateView of src/app.js: await fetchZipBoundary (throws propagate),
draw the target, await fetchPerDiem and display the deduped rates, then
await renderSurrounding (throws propagate). -/
def updateView (center : JsNum × JsNum) (zip : JsValue)
    (boundaryOutcome rateOutcome neighborOutcome : FetchOutcome) : Except JsError ViewResult :=
  match fetchZipBoundary boundaryOutcome with
  | .error e => .error e
  | .ok targetGeojson =>
      let target := drawTarget targetGeojson center zip
      match fetchPerDiem rateOutcome with
      | .error e => .error e
      | .ok mainRates =>
          match renderSurrounding neighborOutcome zip with
          | .error e => .error e
          | .ok overlays => .ok ⟨target, dedupeRates mainRates, overlays⟩

/-- Terminal status of one pipeline run as the submit handler leaves it:
the try block around updateView completed, or its catch displayed the
thrown error message as the status. -/
inductive RunStatus where
  | ready (result : ViewResult)
  | failed (err : JsError)

/-- The handler's try / catch around updateView: an error thrown
anywhere below replaces the status with the error message (the failed
state); otherwise the run reaches the ready status. -/
def runUpdateView (center : JsNum × JsNum) (zip : JsValue)
    (boundaryOutcome rateOutcome neighborOutcome : FetchOutcome) : RunStatus :=
  match updateView center zip boundaryOutcome rateOutcome neighborOutcome with
  | .ok v => .ready v
  | .error e => .failed e

/-- The shapes of a monthly breakdown normalizeRates walks without
throwing: when months is truthy and months.month is an array, every
entry must be non-nullish (m.value throws on a nullish m). -/
def breakdownOk (months : JsValue) : Bool :=
  if jsTruthy months then
    match jsGetTotal months "month" with
    | .arr ms => ms.all (fun m => !jsNullish m)
    | _ => true
  else true

/-- A sub-record normalizeRates processes without throwing: non-nullish
(r.meals is a plain read) with a walkable breakdown. -/
def subOk (r : JsValue) : Bool :=
  !jsNullish r && breakdownOk (jsGetTotal r "months")

/-- A top-level record normalizeRates processes without throwing:
non-nullish (mainItem.rate is a plain read), with mainItem.rate either
falsy (defaulted to the empty array) or an array of good sub-records;
a truthy non-array rate field has no forEach and throws. -/
def mainOk (mainItem : JsValue) : Bool :=
  !jsNullish mainItem &&
    (match jsOr (jsGetTotal mainItem "rate") (.arr []) with
     | .arr rs => rs.all subOk
     | _ => false)

/-- A payload normalizeRates consumes without throwing. -/
def payloadOk (rawRates : JsValue) : Bool :=
  (match rawRates with
   | .arr xs => xs
   | v => [v]).all mainOk

/-- Test fixture: one monthly-breakdown entry with an integer value
field, as the rate service sends them. -/
def mkMonth (n : Int) : JsValue :=
  .obj [("value", .num (.int n))]

/-- Test fixture: a sub-record with a meals field and a monthly
breakdown of the given integer values. -/
def mkSubRecord (mie : JsValue) (vals : List Int) : JsValue :=
  .obj [("meals", mie), ("months", .obj [("month", .arr (vals.map mkMonth))])]

/-- Modelled from the spec (testable property on dedupe order): the
distinct keys of a list, each kept at its first appearance, in
first-seen order.  This is the reference the source's key order is
compared against. -/
def specFirstSeenKeysAux (seen : List String) : List String → List String
  | [] => []
  | k :: ks =>
      if k ∈ seen then specFirstSeenKeysAux seen ks
      else k :: specFirstSeenKeysAux (k :: seen) ks

/-- Modelled from the spec: first-seen order of distinct keys. -/
def specFirstSeenKeys (ks : List String) : List String :=
  specFirstSeenKeysAux [] ks

/-- The postal-code tag of a regional-index element as the discovery
loop reads it, written with tolerant reads so that it is total:
el.tags?.postal_code with nullish elements giving undefined.  Inside a
run of the loop that returned (rather than threw), every element is
non-nullish and this agrees with what the loop computed. -/
def elemCode (el : JsValue) : JsValue :=
  jsOptGet (jsOptGet el "tags") "postal_code"

/-- Objects and arrays: the values whose Set / strict-equality
comparison is reference identity rather than structural. -/
def isObjOrArr : JsValue → Bool
  | .obj _ => true
  | .arr _ => true
  | _ => false

/-- All postal-code tags of an element list are primitive values, so
that SameValueZero coincides with structural equality (JSON postal-code
tags are strings in practice). -/
def codesPrimitive (els : List JsValue) : Bool :=
  els.all (fun el => !isObjOrArr (elemCode el))

/-! ## Helper lemmas -/

theorem jsGet_of_not_nullish {v : JsValue} (h : jsNullish v = false) (name : String) :
    jsGet v name = .ok (jsGetTotal v name) := by
  simp [jsGet, h]

theorem exMap_ok {α β : Type} {f : α → Except JsError β} :
    ∀ {xs : List α}, (∀ x ∈ xs, ∃ y, f x = .ok y) → ∃ ys, exMap f xs = .ok ys := by
  intro xs
  induction xs with
  | nil => exact fun _ => ⟨[], rfl⟩
  | cons x xs ih =>
      intro h
      obtain ⟨y, hy⟩ := h x (List.mem_cons_self x xs)
      obtain ⟨ys, hys⟩ := ih (fun a ha => h a (List.mem_cons_of_mem x ha))
      exact ⟨y :: ys, by simp [exMap, hy, hys]⟩

theorem lodgingOf_ok {months : JsValue} (h : breakdownOk months = true) :
    ∃ v, lodgingOf months = .ok v := by
  cases ht : jsTruthy months with
  | false => exact ⟨.str "N/A", by simp [lodgingOf, ht]⟩
  | true =>
      cases hm : jsGetTotal months "month" with
      | arr ms =>
          have hall : ∀ m ∈ ms, ∃ y, jsGet m "value" = .ok y := by
            intro m hmem
            have h' : ms.all (fun m => !jsNullish m) = true := by
              simpa [breakdownOk, ht, hm] using h
            have := (List.all_eq_true.mp h') m hmem
            exact ⟨jsGetTotal m "value", jsGet_of_not_nullish (by simpa using this) "value"⟩
          obtain ⟨prices, hp⟩ := exMap_ok hall
          refine ⟨if numStrictEq (jsMathMin prices) (jsMathMax prices) then
              .num (jsMathMin prices)
            else .str (numToString (jsMathMin prices) ++ "-" ++ numToString (jsMathMax prices)), ?_⟩
          simp [lodgingOf, ht, hm, hp]
      | null => exact ⟨.str "N/A", by simp [lodgingOf, ht, hm]⟩
      | undefined => exact ⟨.str "N/A", by simp [lodgingOf, ht, hm]⟩
      | bool b => exact ⟨.str "N/A", by simp [lodgingOf, ht, hm]⟩
      | num v => exact ⟨.str "N/A", by simp [lodgingOf, ht, hm]⟩
      | str s => exact ⟨.str "N/A", by simp [lodgingOf, ht, hm]⟩
      | obj fs => exact ⟨.str "N/A", by simp [lodgingOf, ht, hm]⟩

theorem normSub_ok {r : JsValue} (h : subOk r = true) : ∃ q, normSub r = .ok q := by
  have hparts : jsNullish r = false ∧ breakdownOk (jsGetTotal r "months") = true := by
    simpa [subOk] using h
  obtain ⟨v, hv⟩ := lodgingOf_ok hparts.2
  exact ⟨⟨v, jsGetTotal r "meals"⟩, by simp [normSub, jsGet_of_not_nullish hparts.1, hv]⟩

theorem normMain_ok {mainItem : JsValue} (h : mainOk mainItem = true) :
    ∃ l, normMain mainItem = .ok l := by
  have hparts : jsNullish mainItem = false ∧
      (match jsOr (jsGetTotal mainItem "rate") (.arr []) with
       | .arr rs => rs.all subOk
       | _ => false) = true := by
    simpa [mainOk] using h
  have hm := hparts.1
  have h2 := hparts.2
  cases hr : jsOr (jsGetTotal mainItem "rate") (.arr []) with
  | arr rs =>
      have hall : ∀ x ∈ rs, ∃ q, normSub x = .ok q := by
        intro x hx
        have hAll : rs.all subOk = true := by
          rw [hr] at h2
          simpa using h2
        exact normSub_ok ((List.all_eq_true.mp hAll) x hx)
      obtain ⟨l, hl⟩ := exMap_ok hall
      exact ⟨l, by simp [normMain, jsGet_of_not_nullish hm, hr, hl]⟩
  | null => rw [hr] at h2; simp at h2
  | undefined => rw [hr] at h2; simp at h2
  | bool b => rw [hr] at h2; simp at h2
  | num v => rw [hr] at h2; simp at h2
  | str s => rw [hr] at h2; simp at h2
  | obj fs => rw [hr] at h2; simp at h2

/-! ## Claim C1 -/

/-- C1 (corrected).  The claim as stated is false: normalize does not
return for every RawRatePayload.  The amended claim: normalizeRates
returns a list without throwing provided every top-level record is
non-nullish, every record's rate field is falsy or an array, every
sub-record is non-nullish, and every monthly-breakdown entry of an
array breakdown is non-nullish (that is, payloadOk holds); under these
conditions missing or non-array nested fields degrade instead of
failing. -/
theorem normalizeRates_total_of_payloadOk (rawRates : JsValue)
    (h : payloadOk rawRates = true) : ∃ qs, normalizeRates rawRates = .ok qs := by
  have hall : ∀ x ∈ (match rawRates with | .arr xs => xs | v => [v]),
      ∃ l, normMain x = .ok l := by
    intro x hx
    exact normMain_ok ((List.all_eq_true.mp (by simpa [payloadOk] using h)) x hx)
  obtain ⟨parts, hp⟩ := exMap_ok hall
  exact ⟨parts.flatten, by simp [normalizeRates, hp]⟩

/-- C1 witness: the GSA scenario payload from the specification is
well-formed and normalizes without throwing. -/
theorem normalizeRates_total_of_payloadOk_witness :
    payloadOk (.obj [("rate", .arr [mkSubRecord (.num (.int 79)) [150, 150]])]) = true ∧
    ∃ qs, normalizeRates (.obj [("rate", .arr [mkSubRecord (.num (.int 79)) [150, 150]])]) = .ok qs :=
  ⟨by decide,
   normalizeRates_total_of_payloadOk _ (by decide)⟩

/-- C1 counterexample: a payload whose single top-level record is null
makes normalizeRates throw a TypeError (mainItem.rate on null), refuting
the claim that normalize never raises on any RawRatePayload. -/
theorem normalizeRates_throws_on_null_record :
    normalizeRates (.arr [.null]) = .error .typeError := by
  rfl

/-! ## Claim C2 -/

theorem foldl_numMin_ints : ∀ (vs : List Int) (a : Int),
    (vs.map (fun n => JsValue.num (.int n))).foldl (fun acc v => numMin acc (toNumber v))
      (JsNum.int a) = .int (vs.foldl min a) := by
  intro vs
  induction vs with
  | nil => intro a; rfl
  | cons v vs ih => intro a; simpa [numMin, toNumber] using ih (min a v)

theorem foldl_numMax_ints : ∀ (vs : List Int) (a : Int),
    (vs.map (fun n => JsValue.num (.int n))).foldl (fun acc v => numMax acc (toNumber v))
      (JsNum.int a) = .int (vs.foldl max a) := by
  intro vs
  induction vs with
  | nil => intro a; rfl
  | cons v vs ih => intro a; simpa [numMax, toNumber] using ih (max a v)

theorem jsMathMin_ints (v : Int) (vs : List Int) :
    jsMathMin ((v :: vs).map (fun n => JsValue.num (.int n))) = .int (vs.foldl min v) := by
  simpa [jsMathMin, numMin, toNumber] using foldl_numMin_ints vs v

theorem jsMathMax_ints (v : Int) (vs : List Int) :
    jsMathMax ((v :: vs).map (fun n => JsValue.num (.int n))) = .int (vs.foldl max v) := by
  simpa [jsMathMax, numMax, toNumber] using foldl_numMax_ints vs v

theorem exMap_value_mkMonth : ∀ vals : List Int,
    exMap (fun m => jsGet m "value") (vals.map mkMonth) =
      .ok (vals.map (fun n => JsValue.num (.int n))) := by
  intro vals
  induction vals with
  | nil => rfl
  | cons v vs ih =>
      have hhead : jsGet (mkMonth v) "value" = .ok (.num (.int v)) := rfl
      simp only [List.map_cons, exMap, hhead, ih]

theorem lodgingOf_ints (v : Int) (vs : List Int) :
    lodgingOf (.obj [("month", .arr ((v :: vs).map mkMonth))]) =
      .ok (if vs.foldl min v = vs.foldl max v then .num (.int (vs.foldl min v))
           else .str (toString (vs.foldl min v) ++ "-" ++ toString (vs.foldl max v))) := by
  have hex := exMap_value_mkMonth (v :: vs)
  have hmin := jsMathMin_ints v vs
  have hmax := jsMathMax_ints v vs
  simp only [lodgingOf, show jsTruthy (JsValue.obj [("month", JsValue.arr ((v :: vs).map mkMonth))]) = true from rfl,
    show jsGetTotal (JsValue.obj [("month", JsValue.arr ((v :: vs).map mkMonth))]) "month" = JsValue.arr ((v :: vs).map mkMonth) from rfl,
    if_true, hex, hmin, hmax, numStrictEq, numToString]
  by_cases heq : vs.foldl min v = vs.foldl max v <;> simp [heq]

/-- C2 (corrected).  The min / max rule holds for integer breakdowns,
and the two populated scenario instances hold, but an empty breakdown
list does not normalize to the string N/A: since an empty array is
truthy, the branch is taken, Math.min() is +Infinity and Math.max() is
-Infinity, so lodging becomes the string Infinity--Infinity.  Only a
falsy or non-array months.month (absent breakdown) yields N/A. -/
theorem normSub_lodging_rule :
    (∀ (mie : JsValue) (v : Int) (vs : List Int),
       normSub (mkSubRecord mie (v :: vs)) =
         .ok ⟨if vs.foldl min v = vs.foldl max v
               then .num (.int (vs.foldl min v))
               else .str (toString (vs.foldl min v) ++ "-" ++ toString (vs.foldl max v)),
              mie⟩) ∧
    normSub (mkSubRecord (.num (.int 79)) [100, 100, 100]) =
      .ok ⟨.num (.int 100), .num (.int 79)⟩ ∧
    normSub (mkSubRecord (.num (.int 79)) [80, 120]) =
      .ok ⟨.str "80-120", .num (.int 79)⟩ ∧
    normSub (.obj [("meals", .num (.int 79))]) =
      .ok ⟨.str "N/A", .num (.int 79)⟩ ∧
    normSub (mkSubRecord (.num (.int 79)) []) =
      .ok ⟨.str "Infinity--Infinity", .num (.int 79)⟩ := by
  refine ⟨?_, by rfl, by rfl, by rfl, by rfl⟩
  intro mie v vs
  have hl := lodgingOf_ints v vs
  simp only [normSub, mkSubRecord,
    show jsGet (JsValue.obj [("meals", mie), ("months", JsValue.obj [("month", JsValue.arr ((v :: vs).map mkMonth))])]) "meals" = .ok mie from rfl,
    show jsGetTotal (JsValue.obj [("meals", mie), ("months", JsValue.obj [("month", JsValue.arr ((v :: vs).map mkMonth))])]) "months" = JsValue.obj [("month", JsValue.arr ((v :: vs).map mkMonth))] from rfl,
    hl]

/-- C2 counterexample: a sub-record with an empty monthly-breakdown
list yields the lodging string Infinity--Infinity, not the literal N/A
the claim requires for an empty breakdown. -/
theorem normSub_empty_breakdown_not_na :
    normSub (mkSubRecord (.num (.int 79)) []) =
      .ok ⟨.str "Infinity--Infinity", .num (.int 79)⟩ ∧
    ("Infinity--Infinity" : String) ≠ "N/A" :=
  ⟨by rfl, by decide⟩

/-! ## Claims C3 and C4: dedupeRates -/

theorem dedupeRatesAux_sublist : ∀ (L : List RateQuote) (seen : List String),
    (dedupeRatesAux seen L).Sublist L := by
  intro L
  induction L with
  | nil => intro seen; simp [dedupeRatesAux]
  | cons r rest ih =>
      intro seen
      simp only [dedupeRatesAux]
      split
      · exact (ih seen).cons r
      · exact (ih _).cons₂ r

theorem dedupeRatesAux_key_not_seen : ∀ (L : List RateQuote) (seen : List String)
    (q : RateQuote), q ∈ dedupeRatesAux seen L → rateKey q ∉ seen := by
  intro L
  induction L with
  | nil => intro seen q hq; simp [dedupeRatesAux] at hq
  | cons r rest ih =>
      intro seen q hq
      simp only [dedupeRatesAux] at hq
      split at hq
      · exact ih seen q hq
      · rename_i hnot
        rcases List.mem_cons.mp hq with rfl | hq'
        · exact hnot
        · have hq'' := ih _ q hq'
          intro hmem
          exact hq'' (List.mem_cons_of_mem _ hmem)

theorem dedupeRatesAux_keys_nodup : ∀ (L : List RateQuote) (seen : List String),
    ((dedupeRatesAux seen L).map rateKey).Nodup := by
  intro L
  induction L with
  | nil => intro seen; simp [dedupeRatesAux]
  | cons r rest ih =>
      intro seen
      simp only [dedupeRatesAux]
      split
      · exact ih seen
      · simp only [List.map_cons, List.nodup_cons]
        refine ⟨?_, ih _⟩
        intro hmem
        obtain ⟨q, hq, hkey⟩ := List.mem_map.mp hmem
        have := dedupeRatesAux_key_not_seen rest _ q hq
        exact this (hkey ▸ List.mem_cons_self _ _)

theorem dedupeRatesAux_find : ∀ (L : List RateQuote) (seen : List String)
    (q : RateQuote), q ∈ dedupeRatesAux seen L →
    L.find? (fun r => rateKey r == rateKey q) = some q := by
  intro L
  induction L with
  | nil => intro seen q hq; simp [dedupeRatesAux] at hq
  | cons r rest ih =>
      intro seen q hq
      simp only [dedupeRatesAux] at hq
      split at hq
      · rename_i hseen
        have hqk := dedupeRatesAux_key_not_seen rest seen q hq
        have hne : (rateKey r == rateKey q) = false := by
          simp only [beq_eq_false_iff_ne, ne_eq]
          intro hk
          exact hqk (hk ▸ hseen)
        rw [List.find?_cons_of_neg _ (by simp [hne]), ih seen q hq]
      · rename_i hseen
        rcases List.mem_cons.mp hq with rfl | hq'
        · rw [List.find?_cons_of_pos _ (by simp)]
        · have hqk := dedupeRatesAux_key_not_seen rest _ q hq'
          have hne : (rateKey r == rateKey q) = false := by
            simp only [beq_eq_false_iff_ne, ne_eq]
            intro hk
            exact hqk (hk ▸ List.mem_cons_self _ _)
          rw [List.find?_cons_of_neg _ (by simp [hne]), ih _ q hq']

theorem dedupeRatesAux_covers : ∀ (L : List RateQuote) (seen : List String)
    (q : RateQuote), q ∈ L →
    rateKey q ∈ seen ∨ ∃ q', q' ∈ dedupeRatesAux seen L ∧ rateKey q' = rateKey q := by
  intro L
  induction L with
  | nil => intro seen q hq; simp at hq
  | cons r rest ih =>
      intro seen q hq
      simp only [dedupeRatesAux]
      rcases List.mem_cons.mp hq with rfl | hq'
      · by_cases hseen : rateKey q ∈ seen
        · exact Or.inl hseen
        · refine Or.inr ⟨q, ?_, rfl⟩
          simp only [if_neg hseen]
          exact List.mem_cons_self _ _
      · by_cases hseen : rateKey r ∈ seen
        · rcases ih seen q hq' with h | ⟨q', hq'', hk⟩
          · exact Or.inl h
          · exact Or.inr ⟨q', by simp only [if_pos hseen]; exact hq'', hk⟩
        · rcases ih (rateKey r :: seen) q hq' with h | ⟨q', hq'', hk⟩
          · rcases List.mem_cons.mp h with heq | hmem
            · refine Or.inr ⟨r, ?_, heq.symm⟩
              simp only [if_neg hseen]
              exact List.mem_cons_self _ _
            · exact Or.inl hmem
          · refine Or.inr ⟨q', ?_, hk⟩
            simp only [if_neg hseen]
            exact List.mem_cons_of_mem _ hq''

theorem dedupeRatesAux_idem : ∀ (L : List RateQuote) (seen : List String),
    dedupeRatesAux seen (dedupeRatesAux seen L) = dedupeRatesAux seen L := by
  intro L
  induction L with
  | nil => intro seen; rfl
  | cons r rest ih =>
      intro seen
      by_cases hseen : rateKey r ∈ seen
      · simp only [dedupeRatesAux, if_pos hseen]
        exact ih seen
      · simp only [dedupeRatesAux, if_neg hseen]
        rw [ih (rateKey r :: seen)]

theorem dedupeRatesAux_map_key : ∀ (L : List RateQuote) (seen : List String),
    (dedupeRatesAux seen L).map rateKey = specFirstSeenKeysAux seen (L.map rateKey) := by
  intro L
  induction L with
  | nil => intro seen; rfl
  | cons r rest ih =>
      intro seen
      by_cases hseen : rateKey r ∈ seen
      · simp only [dedupeRatesAux, List.map_cons, specFirstSeenKeysAux, if_pos hseen]
        exact ih seen
      · simp only [dedupeRatesAux, List.map_cons, specFirstSeenKeysAux, if_neg hseen]
        rw [ih (rateKey r :: seen)]

/-- C3 (corrected).  dedupeRates collapses quotes exactly when their
derived key strings coincide, where the key replaces each falsy field
(not only a missing one: also 0, the empty string, NaN) by N/A and then
joins the two stringified fields with a hyphen — so distinct
(lodging, mealsAndIncidentals) pairs can collapse.  The retained
representative of each key is its first occurrence, in order of first
appearance: the result is a subsequence of the input, its keys are
pairwise distinct, every member is the first input quote bearing its
key, every input key is represented, and two quotes collapse exactly
when their keys are equal. -/
theorem dedupeRates_key_characterization :
    ∀ L : List RateQuote,
      (dedupeRates L).Sublist L ∧
      ((dedupeRates L).map rateKey).Nodup ∧
      (∀ q ∈ dedupeRates L, L.find? (fun r => rateKey r == rateKey q) = some q) ∧
      (∀ q ∈ L, ∃ q', q' ∈ dedupeRates L ∧ rateKey q' = rateKey q) ∧
      (∀ a b : RateQuote,
        dedupeRates [a, b] = if rateKey a = rateKey b then [a] else [a, b]) := by
  intro L
  refine ⟨dedupeRatesAux_sublist L [], dedupeRatesAux_keys_nodup L [],
    fun q hq => dedupeRatesAux_find L [] q hq,
    fun q hq => by
      rcases dedupeRatesAux_covers L [] q hq with h | h
      · simp at h
      · exact h,
    fun a b => ?_⟩
  by_cases h : rateKey a = rateKey b <;>
    simp [dedupeRates, dedupeRatesAux, h, eq_comm]

/-- C3 witness: in the colliding two-quote list below, the retained
representative of the shared key is its first occurrence. -/
theorem dedupeRates_key_characterization_witness :
    List.find? (fun r => rateKey r == rateKey ⟨.num (.int 0), .num (.int 79)⟩)
      [⟨.num (.int 0), .num (.int 79)⟩, ⟨.str "N/A", .num (.int 79)⟩] =
      some ⟨.num (.int 0), .num (.int 79)⟩ :=
  (dedupeRates_key_characterization
    [⟨.num (.int 0), .num (.int 79)⟩, ⟨.str "N/A", .num (.int 79)⟩]).2.2.1
    ⟨.num (.int 0), .num (.int 79)⟩ (List.mem_singleton_self _)

/-- C3 counterexample: a quote with lodging 0 and a quote with lodging
N/A have different (lodging, mealsAndIncidentals) pairs, yet dedupeRates
collapses them, because the falsy lodging 0 is replaced by N/A in the
key — refuting "collapses exactly when the pairs are identical, with
missing values normalized to N/A". -/
theorem dedupeRates_collapses_distinct_pairs :
    dedupeRates [⟨.num (.int 0), .num (.int 79)⟩, ⟨.str "N/A", .num (.int 79)⟩] =
      [⟨.num (.int 0), .num (.int 79)⟩] ∧
    (JsValue.num (.int 0) = JsValue.str "N/A" → False) :=
  ⟨rfl, fun h => JsValue.noConfusion h⟩

/-- C4 (confirmed).  dedupeRates is idempotent, and the keys of the
deduped list are the distinct input keys in order of first
appearance. -/
theorem dedupeRates_idempotent_first_seen_order :
    ∀ L : List RateQuote,
      dedupeRates (dedupeRates L) = dedupeRates L ∧
      (dedupeRates L).map rateKey = specFirstSeenKeys (L.map rateKey) :=
  fun L => ⟨dedupeRatesAux_idem L [], dedupeRatesAux_map_key L []⟩

/-! ## Claim C7: fetchPerDiem -/

theorem fetchPerDiem_isOk : ∀ o : FetchOutcome, ∃ l, fetchPerDiem o = .ok l := by
  intro o
  cases h : fetchPerDiemTry o with
  | ok l => exact ⟨l, by simp [fetchPerDiem, h]⟩
  | error e => exact ⟨[], by simp [fetchPerDiem, h]⟩

/-- C7 (confirmed).  fetchPerDiem never lets an error escape (its whole
body is inside a try whose catch returns the empty list), and each of
the failure outcomes — rejected fetch, non-ok response, unparsable
body — produces the empty quote list. -/
theorem fetchPerDiem_degrades_to_empty :
    ∀ o : FetchOutcome,
      (∃ l, fetchPerDiem o = .ok l) ∧
      ((o = .transportError ∨ o = .httpError ∨ o = .badJson) → fetchPerDiem o = .ok []) := by
  intro o
  refine ⟨fetchPerDiem_isOk o, ?_⟩
  rintro (rfl | rfl | rfl) <;> rfl

/-- C7 witness: a rejected fetch yields the empty list. -/
theorem fetchPerDiem_degrades_to_empty_witness :
    fetchPerDiem .transportError = .ok [] :=
  (fetchPerDiem_degrades_to_empty .transportError).2 (Or.inl rfl)

/-! ## Claim C5: regional-index failure behavior -/

/-- C5 (corrected).  Only a non-ok response from the regional-index
service degrades to the empty list (and the run then completes with no
neighbor overlays).  A transport error thrown by the fetch — and
likewise an unparsable body — propagates out of fetchSurroundingZips,
which has no try / catch, through the awaited renderSurrounding and
updateView into the handler's catch: the run ends in the failed status
with the error as its message. -/
theorem surrounding_failure_behavior :
    (∀ t : JsValue, fetchSurroundingZips .httpError t = .ok []) ∧
    (∀ t : JsValue, fetchSurroundingZips .transportError t = .error .fetchFailed) ∧
    (∀ (c : JsNum × JsNum) (z g : JsValue) (b r : FetchOutcome),
       fetchZipBoundary b = .ok g →
       (runUpdateView c z b r .httpError =
          .ready ⟨drawTarget g c z,
                  dedupeRates (match fetchPerDiem r with | .ok l => l | .error _ => []), []⟩) ∧
       runUpdateView c z b r .transportError = .failed .fetchFailed) := by
  refine ⟨fun t => rfl, fun t => rfl, ?_⟩
  intro c z g b r hb
  obtain ⟨l, hl⟩ := fetchPerDiem_isOk r
  constructor
  · simp [runUpdateView, updateView, hb, hl, renderSurrounding, fetchSurroundingZips]
  · simp [runUpdateView, updateView, hb, hl, renderSurrounding, fetchSurroundingZips]

/-- C5 witness: with a good boundary and a non-ok regional-index
response, the run reaches ready with no neighbor overlays. -/
theorem surrounding_failure_behavior_witness :
    runUpdateView (.int 40, .int (-74)) (.str "10001")
        (.success (.arr [.obj [("geojson", .str "poly")]])) .httpError .httpError =
      .ready ⟨drawTarget (.str "poly") (.int 40, .int (-74)) (.str "10001"),
              dedupeRates (match fetchPerDiem .httpError with | .ok l => l | .error _ => []),
              []⟩ :=
  (surrounding_failure_behavior.2.2 (.int 40, .int (-74)) (.str "10001") (.str "poly")
    (.success (.arr [.obj [("geojson", .str "poly")]])) .httpError (by rfl)).1

/-- C5 counterexample: a transport error during neighbor loading drives
the whole run into the failed state (the status is replaced with the
error), refuting the claim that a neighbor-loading failure never does
so and always degrades to the empty list. -/
theorem neighbor_transport_error_fails_run :
    runUpdateView (.int 30, .int (-97)) (.str "78701") (.success (.arr []))
      .httpError .transportError = .failed .fetchFailed := by
  rfl

/-! ## Claim C8: resolveZip -/

/-- C8 (corrected).  When place.address and its postcode field are both
truthy, resolveZip returns the carried postcode with no reverse lookup;
otherwise exactly one reverse lookup is issued and: a non-ok response
yields null, an object body yields the body's address?.postcode when
truthy and null otherwise, but a null response body throws a TypeError
(data.address on null) instead of returning null. -/
theorem resolveZip_behavior :
    (∀ (place : JsValue) (rev : FetchOutcome),
       jsNullish place = false →
       (jsTruthy (jsGetTotal place "address") &&
        jsTruthy (jsGetTotal (jsGetTotal place "address") "postcode")) = true →
       resolveZip place rev = .ok (jsGetTotal (jsGetTotal place "address") "postcode", 0)) ∧
    (∀ place : JsValue,
       jsNullish place = false →
       (jsTruthy (jsGetTotal place "address") &&
        jsTruthy (jsGetTotal (jsGetTotal place "address") "postcode")) = false →
       resolveZip place .httpError = .ok (.null, 1) ∧
       resolveZip place (.success .null) = .error .typeError ∧
       (∀ fields : List (String × JsValue),
          resolveZip place (.success (.obj fields)) =
            .ok (jsOr (jsOptGet (jsGetTotal (.obj fields) "address") "postcode") .null, 1))) := by
  constructor
  · intro place rev hplace hcond
    simp only [resolveZip, jsGet_of_not_nullish hplace, hcond, if_true]
  · intro place hplace hcond
    refine ⟨?_, ?_, ?_⟩
    · simp only [resolveZip, jsGet_of_not_nullish hplace, hcond, Bool.false_eq_true, if_false]
    · simp only [resolveZip, jsGet_of_not_nullish hplace, hcond, Bool.false_eq_true, if_false]
      rfl
    · intro fields
      simp only [resolveZip, jsGet_of_not_nullish hplace, hcond, Bool.false_eq_true, if_false]
      rfl

/-- C8 witness: the Austin scenario — a place already carrying a truthy
postcode resolves to it with zero reverse lookups. -/
theorem resolveZip_behavior_witness :
    resolveZip (.obj [("address", .obj [("postcode", .str "73301")])]) .httpError =
      .ok (.str "73301", 0) :=
  resolveZip_behavior.1 (.obj [("address", .obj [("postcode", .str "73301")])])
    .httpError rfl rfl

/-- C8 counterexample: this place carries a postcode field (with the
falsy value of the empty string), yet resolveZip issues a reverse
lookup (count 1) and returns the looked-up code instead of the carried
one — refuting "returns that postcode directly without issuing a
reverse-lookup call" for every Place carrying a postcode field. -/
theorem resolveZip_ignores_carried_falsy_postcode :
    resolveZip (.obj [("address", .obj [("postcode", .str "")])])
        (.success (.obj [("address", .obj [("postcode", .str "78701")])])) =
      .ok (.str "78701", 1) ∧
    ¬ (resolveZip (.obj [("address", .obj [("postcode", .str "")])])
        (.success (.obj [("address", .obj [("postcode", .str "78701")])])) =
      .ok (.str "", 0)) := by
  refine ⟨rfl, ?_⟩
  intro h
  have h' : (Except.ok ((JsValue.str "78701"), (1 : Nat)) : Except JsError (JsValue × Nat)) =
      .ok (.str "", 0) := h
  injection h' with h''
  injection h'' with h1 h2
  exact absurd h2 (by decide)

/-! ## Claim C9: fetchZipBoundary and the point-marker fallback -/

/-- C9 (confirmed).  fetchZipBoundary throws the boundary error exactly
when the response is non-ok (a transport error or a parse failure
throws a different error, and a success body never produces this one);
and a success body — a match list per the service interface — whose
first entry carries no truthy geojson yields the absent value null,
which drawTarget renders as the point marker at the resolved
coordinate, not a polygon. -/
theorem fetchZipBoundary_error_absent_behavior :
    ∀ (o : FetchOutcome) (els : List JsValue) (c : JsNum × JsNum) (z : JsValue),
      (fetchZipBoundary o =
          .error (.thrown "Could not load boundary for the target Zip Code.") ↔
        o = .httpError) ∧
      (jsTruthy (jsOptGet (jsIndexTotal (.arr els) 0) "geojson") = false →
        fetchZipBoundary (.success (.arr els)) = .ok .null ∧
        drawTarget .null c z = .markerLayer c z) := by
  intro o els c z
  constructor
  · constructor
    · intro h
      cases o with
      | httpError => rfl
      | transportError =>
          have h' : (Except.error JsError.fetchFailed : Except JsError JsValue) =
              .error (.thrown "Could not load boundary for the target Zip Code.") := h
          injection h' with h''
          exact absurd h'' (by decide)
      | badJson =>
          have h' : (Except.error JsError.jsonParse : Except JsError JsValue) =
              .error (.thrown "Could not load boundary for the target Zip Code.") := h
          injection h' with h''
          exact absurd h'' (by decide)
      | success data =>
          cases hn : jsNullish data with
          | true =>
              have hres : fetchZipBoundary (.success data) = .error .typeError := by
                simp [fetchZipBoundary, jsIndex, hn]
              rw [hres] at h
              injection h with h''
              exact absurd h'' (by decide)
          | false =>
              have hres : fetchZipBoundary (.success data) =
                  .ok (jsOr (jsOptGet (jsIndexTotal data 0) "geojson") .null) := by
                simp [fetchZipBoundary, jsIndex, hn]
              rw [hres] at h
              exact Except.noConfusion h
    · rintro rfl
      rfl
  · intro hfalsy
    refine ⟨?_, by simp [drawTarget, jsTruthy]⟩
    simp [fetchZipBoundary, jsIndex, jsNullish, jsOr, hfalsy]

/-- C9 witness: a non-ok response throws the boundary error, and the
empty match list yields the absent value. -/
theorem fetchZipBoundary_error_absent_behavior_witness :
    fetchZipBoundary .httpError =
      .error (.thrown "Could not load boundary for the target Zip Code.") ∧
    fetchZipBoundary (.success (.arr [])) = .ok .null :=
  ⟨(fetchZipBoundary_error_absent_behavior .httpError [] (.int 0, .int 0) .null).1.mpr rfl,
   ((fetchZipBoundary_error_absent_behavior .httpError [] (.int 0, .int 0) .null).2 (by rfl)).1⟩

/-! ## Claim C10: empty-geometry candidates are skipped -/

/-- C10 (confirmed).  A discovered candidate (whose object has only the
postalCode and geometry fields, hence no geojson) with null or empty
geometry produces no Leaflet shape — toLeafletShape yields null — and
the rendering loop's early return drops it, so the overlay list is the
same as if the candidate were absent: it is never drawn, never
clickable, and its click-driven rate fetch never exists. -/
theorem toLeafletShape_empty_geometry_skipped :
    ∀ (z : Zone) (pre post : List Zone),
      (z.geometry = .null ∨ z.geometry = .arr []) →
      toLeafletShape (Zone.toJs z) = .ok none ∧
      (pre ++ z :: post).filterMap neighborOverlayOf = (pre ++ post).filterMap neighborOverlayOf := by
  intro z pre post hgeom
  obtain ⟨pc, geom⟩ := z
  have hshape : toLeafletShape (Zone.toJs ⟨pc, geom⟩) = .ok none := by
    rcases hgeom with h | h <;> simp only at h <;> subst h <;> rfl
  refine ⟨hshape, ?_⟩
  have hnone : neighborOverlayOf ⟨pc, geom⟩ = none := by
    simp [neighborOverlayOf, hshape]
  simp [List.filterMap_append, List.filterMap_cons, hnone]

/-- C10 witness: a concrete candidate with null geometry is skipped. -/
theorem toLeafletShape_empty_geometry_skipped_witness :
    toLeafletShape (Zone.toJs ⟨.str "11111", .null⟩) = .ok none ∧
    ([] ++ (⟨.str "11111", .null⟩ : Zone) :: []).filterMap neighborOverlayOf =
      ([] ++ ([] : List Zone)).filterMap neighborOverlayOf :=
  toLeafletShape_empty_geometry_skipped ⟨.str "11111", .null⟩ [] [] (Or.inl rfl)

/-! ## Claim C6: exclusion and uniqueness of discovered candidates -/

theorem jsSvz_iff_left {x y : JsValue} (hx : isObjOrArr x = false) :
    jsSvz x y = true ↔ x = y := by
  cases x <;> cases y <;> simp_all [jsSvz, isObjOrArr]

theorem jsSvz_refl {x : JsValue} (hx : isObjOrArr x = false) : jsSvz x x = true :=
  (jsSvz_iff_left hx).mpr rfl

theorem jsStrictEq_str_iff {x : JsValue} {s : String} :
    jsStrictEq x (.str s) = true ↔ x = .str s := by
  cases x <;> simp [jsStrictEq]

theorem jsGet_ok_parts {v w : JsValue} {name : String} (h : jsGet v name = .ok w) :
    jsNullish v = false ∧ jsGetTotal v name = w ∧ jsOptGet v name = w := by
  by_cases hn : jsNullish v = true
  · simp [jsGet, hn] at h
  · have hn' : jsNullish v = false := by simpa using hn
    have hw : jsGetTotal v name = w := by
      have h' := h
      simp [jsGet, hn'] at h'
      exact h'
    exact ⟨hn', hw, by simp [jsOptGet, hn', hw]⟩

theorem zonesLoop_mem_invariant : ∀ (els : List JsValue) (t : JsValue) (seen : List JsValue)
    (zs : List Zone) (c : Zone),
    zonesLoop t seen els = .ok zs → c ∈ zs →
    jsTruthy c.postalCode = true ∧ jsStrictEq c.postalCode t = false ∧
    ∀ s ∈ seen, jsSvz s c.postalCode = false := by
  intro els
  induction els with
  | nil =>
      intro t seen zs c hok hc
      simp only [zonesLoop] at hok
      injection hok with h
      subst h
      simp at hc
  | cons el rest ih =>
      intro t seen zs c hok hc
      simp only [zonesLoop] at hok
      cases hget : jsGet el "tags" with
      | error e => simp only [hget] at hok; exact Except.noConfusion hok
      | ok tags =>
          simp only [hget] at hok
          by_cases hcond : (!jsTruthy (jsOptGet tags "postal_code") ||
              jsStrictEq (jsOptGet tags "postal_code") t ||
              seen.any (fun s => jsSvz s (jsOptGet tags "postal_code"))) = true
          · rw [if_pos hcond] at hok
            exact ih t seen zs c hok hc
          · rw [if_neg hcond] at hok
            cases hrec : zonesLoop t (jsOptGet tags "postal_code" :: seen) rest with
            | error e => simp only [hrec] at hok; exact Except.noConfusion hok
            | ok zs' =>
                simp only [hrec] at hok
                injection hok with h
                subst h
                have hcond' : (!jsTruthy (jsOptGet tags "postal_code") ||
                    jsStrictEq (jsOptGet tags "postal_code") t ||
                    seen.any (fun s => jsSvz s (jsOptGet tags "postal_code"))) = false := by
                  simpa using hcond
                have h1 : jsTruthy (jsOptGet tags "postal_code") = true := by
                  rcases Bool.or_eq_false_iff.mp hcond' with ⟨ha, _⟩
                  rcases Bool.or_eq_false_iff.mp ha with ⟨ha', _⟩
                  simpa using ha'
                have h2 : jsStrictEq (jsOptGet tags "postal_code") t = false := by
                  rcases Bool.or_eq_false_iff.mp hcond' with ⟨ha, _⟩
                  exact (Bool.or_eq_false_iff.mp ha).2
                have h3 : seen.any (fun s => jsSvz s (jsOptGet tags "postal_code")) = false :=
                  (Bool.or_eq_false_iff.mp hcond').2
                have hall : ∀ s ∈ seen, jsSvz s (jsOptGet tags "postal_code") = false := by
                  intro s hs
                  by_contra htrue
                  have hmem : seen.any (fun s => jsSvz s (jsOptGet tags "postal_code")) = true :=
                    List.any_eq_true.mpr ⟨s, hs, by simpa using htrue⟩
                  rw [hmem] at h3
                  exact Bool.noConfusion h3
                rcases List.mem_cons.mp hc with rfl | hc'
                · exact ⟨h1, h2, hall⟩
                · have hres := ih t (jsOptGet tags "postal_code" :: seen) zs' c hrec hc'
                  exact ⟨hres.1, hres.2.1, fun s hs => hres.2.2 s (List.mem_cons_of_mem _ hs)⟩

theorem zonesLoop_nodup : ∀ (els : List JsValue) (t : JsValue) (seen : List JsValue)
    (zs : List Zone), codesPrimitive els = true → zonesLoop t seen els = .ok zs →
    (zs.map Zone.postalCode).Nodup := by
  intro els
  induction els with
  | nil =>
      intro t seen zs hprim hok
      simp only [zonesLoop] at hok
      injection hok with h
      subst h
      simp
  | cons el rest ih =>
      intro t seen zs hprim hok
      simp only [codesPrimitive, List.all_cons, Bool.and_eq_true] at hprim
      obtain ⟨hel, hrest'⟩ := hprim
      have hrest : codesPrimitive rest = true := hrest'
      simp only [zonesLoop] at hok
      cases hget : jsGet el "tags" with
      | error e => simp only [hget] at hok; exact Except.noConfusion hok
      | ok tags =>
          simp only [hget] at hok
          by_cases hcond : (!jsTruthy (jsOptGet tags "postal_code") ||
              jsStrictEq (jsOptGet tags "postal_code") t ||
              seen.any (fun s => jsSvz s (jsOptGet tags "postal_code"))) = true
          · rw [if_pos hcond] at hok
            exact ih t seen zs hrest hok
          · rw [if_neg hcond] at hok
            cases hrec : zonesLoop t (jsOptGet tags "postal_code" :: seen) rest with
            | error e => simp only [hrec] at hok; exact Except.noConfusion hok
            | ok zs' =>
                simp only [hrec] at hok
                injection hok with h
                subst h
                simp only [List.map_cons, List.nodup_cons]
                refine ⟨?_, ih t _ zs' hrest hrec⟩
                intro hmem
                obtain ⟨c, hc, hpc⟩ := List.mem_map.mp hmem
                have hinv := zonesLoop_mem_invariant rest t
                  (jsOptGet tags "postal_code" :: seen) zs' c hrec hc
                have hsvz := hinv.2.2 (jsOptGet tags "postal_code") (List.mem_cons_self _ _)
                have hElemCode : elemCode el = jsOptGet tags "postal_code" := by
                  simp [elemCode, (jsGet_ok_parts hget).2.2]
                have hPrimCode : isObjOrArr (jsOptGet tags "postal_code") = false := by
                  rw [← hElemCode]
                  simpa using hel
                rw [hpc] at hsvz
                rw [jsSvz_refl hPrimCode] at hsvz
                exact Bool.noConfusion hsvz

theorem zonesLoop_first : ∀ (els : List JsValue) (t : JsValue) (seen : List JsValue)
    (zs : List Zone) (c : Zone),
    codesPrimitive els = true → zonesLoop t seen els = .ok zs → c ∈ zs →
    ∃ el', els.find? (fun el => jsSvz (elemCode el) c.postalCode) = some el' ∧
      elemCode el' = c.postalCode ∧ jsGetTotal el' "geometry" = c.geometry := by
  intro els
  induction els with
  | nil =>
      intro t seen zs c hprim hok hc
      simp only [zonesLoop] at hok
      injection hok with h
      subst h
      simp at hc
  | cons el rest ih =>
      intro t seen zs c hprim hok hc
      simp only [codesPrimitive, List.all_cons, Bool.and_eq_true] at hprim
      obtain ⟨hel, hrest'⟩ := hprim
      have hrest : codesPrimitive rest = true := hrest'
      simp only [zonesLoop] at hok
      cases hget : jsGet el "tags" with
      | error e => simp only [hget] at hok; exact Except.noConfusion hok
      | ok tags =>
          simp only [hget] at hok
          have hElemCode : elemCode el = jsOptGet tags "postal_code" := by
            simp [elemCode, (jsGet_ok_parts hget).2.2]
          have hPrimCode : isObjOrArr (jsOptGet tags "postal_code") = false := by
            rw [← hElemCode]
            simpa using hel
          by_cases hcond : (!jsTruthy (jsOptGet tags "postal_code") ||
              jsStrictEq (jsOptGet tags "postal_code") t ||
              seen.any (fun s => jsSvz s (jsOptGet tags "postal_code"))) = true
          · rw [if_pos hcond] at hok
            have hinv := zonesLoop_mem_invariant rest t seen zs c hok hc
            have hpred : jsSvz (elemCode el) c.postalCode = false := by
              rw [hElemCode]
              by_contra htrue
              have htrue' : jsSvz (jsOptGet tags "postal_code") c.postalCode = true := by
                simpa using htrue
              have heq : jsOptGet tags "postal_code" = c.postalCode :=
                (jsSvz_iff_left hPrimCode).mp htrue'
              rcases Bool.or_eq_true_iff.mp hcond with hab | hcseen
              · rcases Bool.or_eq_true_iff.mp hab with ha | hb
                · have : jsTruthy (jsOptGet tags "postal_code") = false := by simpa using ha
                  rw [heq, hinv.1] at this
                  exact Bool.noConfusion this
                · rw [heq, hinv.2.1] at hb
                  exact Bool.noConfusion hb
              · obtain ⟨s, hs, hsvz⟩ := List.any_eq_true.mp hcseen
                rw [heq] at hsvz
                have := hinv.2.2 s hs
                rw [this] at hsvz
                exact Bool.noConfusion hsvz
            rw [List.find?_cons_of_neg _ (by simp [hpred])]
            exact ih t seen zs c hrest hok hc
          · rw [if_neg hcond] at hok
            cases hrec : zonesLoop t (jsOptGet tags "postal_code" :: seen) rest with
            | error e => simp only [hrec] at hok; exact Except.noConfusion hok
            | ok zs' =>
                simp only [hrec] at hok
                injection hok with h
                subst h
                rcases List.mem_cons.mp hc with rfl | hc'
                · refine ⟨el, ?_, hElemCode, rfl⟩
                  rw [List.find?_cons_of_pos _ (by simp [hElemCode, jsSvz_refl hPrimCode])]
                · have hinv := zonesLoop_mem_invariant rest t
                    (jsOptGet tags "postal_code" :: seen) zs' c hrec hc'
                  have hsvz := hinv.2.2 (jsOptGet tags "postal_code") (List.mem_cons_self _ _)
                  have hpred : jsSvz (elemCode el) c.postalCode = false := by
                    rw [hElemCode]
                    exact hsvz
                  rw [List.find?_cons_of_neg _ (by simp [hpred])]
                  exact ih t (jsOptGet tags "postal_code" :: seen) zs' c hrest hrec hc'

/-- C6 (confirmed).  Every candidate list fetchSurroundingZips builds
from a regional-index element list excludes the target postal code (by
string strict equality); and whenever the elements' postal-code tags
are primitive values (as JSON string tags are), the candidate postal
codes are pairwise distinct and each candidate's geometry comes from
the first element bearing its postal code. -/
theorem fetchSurroundingZips_exclusion_uniqueness :
    ∀ (els : List JsValue) (t : String) (zs : List Zone),
      fetchSurroundingZips (.success (.obj [("elements", .arr els)])) (.str t) = .ok zs →
      (∀ c ∈ zs, c.postalCode ≠ .str t) ∧
      (codesPrimitive els = true →
        (zs.map Zone.postalCode).Nodup ∧
        ∀ c ∈ zs, ∃ el', els.find? (fun el => jsSvz (elemCode el) c.postalCode) = some el' ∧
          elemCode el' = c.postalCode ∧ jsGetTotal el' "geometry" = c.geometry) := by
  intro els t zs hok
  have hloop : zonesLoop (.str t) [] els = .ok zs := hok
  constructor
  · intro c hc heq
    have hinv := zonesLoop_mem_invariant els (.str t) [] zs c hloop hc
    have := hinv.2.1
    rw [heq] at this
    rw [jsStrictEq_str_iff.mpr rfl] at this
    exact Bool.noConfusion this
  · intro hprim
    exact ⟨zonesLoop_nodup els (.str t) [] zs hprim hloop,
      fun c hc => zonesLoop_first els (.str t) [] zs c hprim hloop hc⟩

/-- C6 witness: for a concrete element list containing the target code,
a duplicate code and a tagless element, the candidate codes are
pairwise distinct. -/
theorem fetchSurroundingZips_exclusion_uniqueness_witness :
    (([⟨.str "11111", .arr []⟩] : List Zone).map Zone.postalCode).Nodup :=
  ((fetchSurroundingZips_exclusion_uniqueness
    [.obj [("tags", .obj [("postal_code", .str "11111")]), ("geometry", .arr [])],
     .obj [("tags", .obj [("postal_code", .str "99999")])],
     .obj [("tags", .obj [("postal_code", .str "11111")]), ("geometry", .null)],
     .obj [("tags", .obj [])]]
    "99999" [⟨.str "11111", .arr []⟩] (by rfl)).2 (by rfl)).1
